import Mathlib

/-!
# Verification of the Investment-automation evidence pipeline

Shallow embedding of the tool layer (`finance_tools.py`, `news_tools.py`),
the input normalization in `main.py`, and the retry/fallback runner in
`gui.py`, together with proofs settling the frozen claims about them.

Strings are modelled by Lean `String`; Python `str.strip` / `str.upper` /
`str.lower` are modelled character-wise over `String.data`.  Numbers that
Python holds as `float` are modelled by `ℚ`; a Python value that may or may
not coerce to a number is modelled by the inductive `Cell` below, and the
marker `"N/A"` by `Option.none` in numeric positions.
-/

/-! ## String primitives (Python `strip` / `upper` / `lower`) -/

/-- Python `str.strip` on a character list: drop whitespace at both ends. -/
def pyStripList (cs : List Char) : List Char :=
  ((cs.dropWhile Char.isWhitespace).reverse.dropWhile Char.isWhitespace).reverse

/-- Python `str.strip`. -/
def pyStrip (s : String) : String :=
  String.mk (pyStripList s.data)

/-- Python `str.upper` (character-wise). -/
def pyUpper (s : String) : String :=
  String.mk (s.data.map Char.toUpper)

/-- Python `str.lower` (character-wise). -/
def pyLower (s : String) : String :=
  String.mk (s.data.map Char.toLower)

/-! ## Numeric cells and coercion (`_to_float`, rounding) -/

/-- A Python value in a numeric position: `None`, a value coercible to
`float` (carried as the coerced rational), or a non-coercible value. -/
inductive Cell where
  | null : Cell
  | num (q : ℚ) : Cell
  | text (s : String) : Cell
deriving DecidableEq, Repr

/-- `_to_float` from `finance_tools.py`: `None`/non-coercible values map to
`None`, numeric values to their float. -/
def to_float : Cell → Option ℚ
  | Cell.null => none
  | Cell.num q => some q
  | Cell.text _ => none

/-- Round-half-to-even on rationals (Python `round` tie-breaking). -/
def roundHalfEven (q : ℚ) : ℤ :=
  let f := ⌊q⌋
  let frac := q - f
  if frac < 1/2 then f
  else if 1/2 < frac then f + 1
  else if f % 2 = 0 then f else f + 1

/-- Python `round(x, n)` modelled on rationals. -/
def pyRoundTo (q : ℚ) (n : ℕ) : ℚ :=
  (roundHalfEven (q * 10 ^ n) : ℚ) / 10 ^ n

/-! ## `finance_tools.py`: statement-row extraction -/

/-- `_series_to_list` restricted to the part the statement tools use:
`dropna` removes null cells, order is preserved. -/
def series_to_list (row : List Cell) : List Cell :=
  row.filter (fun c => c ≠ Cell.null)

/-- A financial statement table: ordered association of row label to the
ordered period cells of that row (most-recent first).  `none` models a
`None` statement; an empty row list models `statement.empty`. -/
def Statement := Option (List (String × List Cell))

/-- The lookup dictionary of `_get_statement_row_values`: label normalized
by `strip().lower()`; a dict comprehension lets later labels overwrite
earlier ones, so the last matching row wins. -/
def statementLookup (rows : List (String × List Cell)) (key : String) :
    Option (List Cell) :=
  (rows.filter (fun r => pyLower (pyStrip r.1) = key)).getLast?.map Prod.snd

/-- `_get_statement_row_values`. -/
def get_statement_row_values (st : Statement) (lineItem : String) : List Cell :=
  match st with
  | none => []
  | some rows =>
    if rows.isEmpty then []
    else
      match statementLookup rows (pyLower (pyStrip lineItem)) with
      | none => []
      | some row => series_to_list row

/-- `_latest_and_previous`: first and second coercible values of the row,
rounded to 4 decimals; `none` models the `"N/A"` marker. -/
def latest_and_previous (st : Statement) (lineItem : String) :
    Option ℚ × Option ℚ :=
  let values := (get_statement_row_values st lineItem).filterMap to_float
  match values with
  | [] => (none, none)
  | [v] => (some (pyRoundTo v 4), none)
  | v :: w :: _ => (some (pyRoundTo v 4), some (pyRoundTo w 4))

/-- `_pct_change`: `"N/A"` (here `none`) when either operand fails to
coerce or the previous value is zero, else the rounded percentage change. -/
def pct_change (current previous : Cell) : Option ℚ :=
  match to_float current, to_float previous with
  | some c, some p =>
    if p = 0 then none
    else some (pyRoundTo ((c - p) / |p| * 100) 2)
  | _, _ => none

/-! ## `finance_tools.py`: ticker candidates and resolution -/

/-- The order-preserving deduplication loop used by `_candidate_tickers`
(and by `_candidate_openrouter_models` in `gui.py`). -/
def dedupPreserveOrder (l : List String) : List String :=
  l.foldl (fun acc s => if s ∈ acc then acc else acc ++ [s]) []

/-- `_candidate_tickers`. -/
def candidate_tickers (ticker market exchangePreference : String) :
    List String :=
  let base := pyUpper (pyStrip ticker)
  if base = "" then [base]
  else if '.' ∈ base.data then [base]
  else if market ≠ "india" then [base]
  else if exchangePreference = "BSE" then
    dedupPreserveOrder [base ++ ".BO", base ++ ".NS", base]
  else
    dedupPreserveOrder [base ++ ".NS", base ++ ".BO", base]

/-- The substitution note appended by `_resolve_ticker_object` when the
resolved candidate differs from the requested symbol (quote characters of
the source string elided). -/
def substitutionNote (requested candidate : String) : String :=
  "Resolved ticker " ++ requested ++ " to " ++ candidate ++
    " for yfinance lookup."

/-- Outcome of the candidate loop in `_resolve_ticker_object`. -/
inductive LoopOutcome (H E : Type) where
  | found (candidate : String) (handle : H)
  | exhausted (fallback : Option H) (lastError : Option E)

/-- The candidate loop of `_resolve_ticker_object`.  `construct` models
`yf.Ticker(candidate)` (which may raise), `valid` models
`_looks_valid_ticker` (total: it catches its own exceptions).  On a
successful construction the handle becomes the fallback object; on a
raised construction the error becomes the last error. -/
def resolveLoop {H E : Type} (construct : String → Except E H)
    (valid : H → Bool) :
    List String → Option H → Option E → LoopOutcome H E
  | [], fb, le => LoopOutcome.exhausted fb le
  | c :: rest, fb, le =>
    match construct c with
    | Except.ok h =>
      if valid h then LoopOutcome.found c h
      else resolveLoop construct valid rest (some h) le
    | Except.error e => resolveLoop construct valid rest fb (some e)

/-- `_resolve_ticker_object`.  The error side is `Option E`: `some e`
models propagating the last raised error, `none` models the terminal
`RuntimeError("Unable to initialize ticker object.")`. -/
def resolve_ticker_object {H E : Type} (construct : String → Except E H)
    (valid : H → Bool) (ticker market exchangePreference : String) :
    Except (Option E) (String × H × List String) :=
  match resolveLoop construct valid
      (candidate_tickers ticker market exchangePreference) none none with
  | LoopOutcome.found c h =>
    Except.ok (c, h,
      if c = pyUpper (pyStrip ticker) then []
      else [substitutionNote (pyUpper (pyStrip ticker)) c])
  | LoopOutcome.exhausted (some h) _ =>
    match (candidate_tickers ticker market exchangePreference).getLast? with
    | some lastCandidate => Except.ok (lastCandidate, h, [])
    | none => Except.error none
  | LoopOutcome.exhausted none (some e) => Except.error (some e)
  | LoopOutcome.exhausted none none => Except.error none

/-- Whether a candidate both constructs and passes the validity probe. -/
def probeSucceeds {H E : Type} (construct : String → Except E H)
    (valid : H → Bool) (c : String) : Bool :=
  match construct c with
  | Except.ok h => valid h
  | Except.error _ => false

/-! ## `finance_tools.py`: price snapshot pieces -/

/-- The `change_pct` closure of `GetCurrentStockPriceTool._run`: `closes`
is the chronological close series (latest last). -/
def change_pct (closes : List ℚ) (barsBack : ℕ) : Option ℚ :=
  if h : closes.length ≤ barsBack then none
  else
    pct_change
      (Cell.num (closes.get ⟨closes.length - 1, by omega⟩))
      (Cell.num (closes.get ⟨closes.length - (barsBack + 1), by omega⟩))

/-- Average-volume selection of `GetCurrentStockPriceTool._run`:
source-reported value preferred, else the mean of the last 30 volume
observations (all of them if fewer), else `"N/A"`. -/
def average_volume (infoValue : Option ℚ) (volumes : List ℚ) : Option ℚ :=
  match infoValue with
  | some v => some v
  | none =>
    if volumes = [] then none
    else
      let sample :=
        if volumes.length > 30 then volumes.drop (volumes.length - 30)
        else volumes
      some (sample.sum / sample.length)

/-! ## `news_tools.py` -/

/-- A normalized news article. -/
structure Article where
  title : String
  url : String
  publishedDate : String
  summary : String
deriving DecidableEq, Repr

/-- `_safe_str`: `None` becomes `"N/A"`, other values are stringified and
stripped, with the empty result also becoming `"N/A"`. -/
def safe_str (value : Option String) : String :=
  match value with
  | none => "N/A"
  | some s => if pyStrip s = "" then "N/A" else pyStrip s

/-- A raw search record as seen by `_normalize_results`: each field is
either present (as a string) or absent/`None`. -/
structure RawRecord where
  title : Option String
  url : Option String
  publishedDate : Option String
  summary : Option String

/-- The per-record normalization of `_normalize_results`. -/
def normalizeRecord (r : RawRecord) : Article :=
  { title := safe_str r.title
    url := safe_str r.url
    publishedDate := safe_str r.publishedDate
    summary := String.mk ((safe_str r.summary).data.take 500) }

/-- `_normalize_results` over a record list. -/
def normalize_results (records : List RawRecord) : List Article :=
  records.map normalizeRecord

/-- The loop body of `_deduplicate_articles`, keyed on the article url. -/
def dedupArticlesGo : List Article → List String → List Article
  | [], _ => []
  | a :: rest, seen =>
    if a.url ∈ seen then dedupArticlesGo rest seen
    else a :: dedupArticlesGo rest (a.url :: seen)

/-- `_deduplicate_articles`. -/
def deduplicate_articles (articles : List Article) : List Article :=
  dedupArticlesGo articles []

/-- The observable result bundle of `CompanyNewsSearchTool._run`. -/
structure NewsBundle where
  priorityResultsCount : ℕ
  totalResultsCount : ℕ
  fallbackUsed : Bool
  sourceConfidence : String
  articles : List Article
  dataQualityNotes : List String
deriving Repr

/-- The two-tier merge/confidence logic of `CompanyNewsSearchTool._run`,
as a function of the article lists the two backend queries return
(`broad` is only consulted when the fallback fires, exactly as in the
source). -/
def newsSearchOutcome (priority broad : List Article) : NewsBundle :=
  let fallbackUsed : Bool := priority.length < 3
  let broadUsed := if fallbackUsed then broad else []
  let confidence1 := if fallbackUsed then "medium" else "high"
  let notes1 :=
    if fallbackUsed then
      ["Priority-domain coverage was limited; broad web fallback was used."]
    else []
  let articles := (deduplicate_articles (priority ++ broadUsed)).take 15
  let confidence2 := if articles.isEmpty then "low" else confidence1
  let notes2 :=
    if articles.isEmpty then
      notes1 ++ ["No recent news articles were returned by Exa."]
    else notes1
  { priorityResultsCount := priority.length
    totalResultsCount := articles.length
    fallbackUsed := fallbackUsed
    sourceConfidence := confidence2
    articles := articles
    dataQualityNotes := notes2 }

/-! ## `main.py`: input normalization -/

/-- `normalize_market` from `main.py`. -/
def normalize_market (value : String) : String :=
  if pyLower (pyStrip value) ∈ ["india", "indian", "in", "nse", "bse"] then
    "india"
  else "global"

/-- `normalize_exchange_preference` from `main.py`. -/
def normalize_exchange_preference (value : String) : String :=
  if pyUpper (pyStrip value) ∈ ["BSE", "BO", ".BO"] then "BSE" else "NSE"

/-- `normalize_input_ticker` from `main.py`. -/
def normalize_input_ticker (ticker market exchangePreference : String) :
    String :=
  let normalized := pyUpper (pyStrip ticker)
  if normalized = "" ∨ '.' ∈ normalized.data then normalized
  else if normalize_market market = "india" then
    let exchange := normalize_exchange_preference exchangePreference
    let suffix := if exchange = "BSE" then ".BO" else ".NS"
    normalized ++ suffix
  else normalized

/-! ## `gui.py`: retry / fallback runner -/

/-- Classification of a `kickoff` exception by the message predicates of
`gui.py` (`"readonly database"`, `_is_rate_limit_error`,
`_is_free_model_policy_error`).  A message may satisfy several. -/
structure KickError where
  readonlyDb : Bool
  rateLimit : Bool
  freeModelPolicy : Bool
deriving DecidableEq, Repr

/-- `_is_model_switchable_error`. -/
def modelSwitchable (e : KickError) : Bool :=
  e.rateLimit || e.freeModelPolicy

/-- Final outcome of `run_workflow` as observed by the caller. -/
inductive RunOutcome where
  | success (model : String)
  | fatal (e : KickError)
  | noResult
  | validationFailed
deriving DecidableEq, Repr

/-- Control signal produced by one pass of the inner `for` loop. -/
inductive ForSignal where
  | done (out : RunOutcome)
  | retryAttempt
deriving DecidableEq, Repr

/-- One pass of the inner `for candidate_model in candidate_models` loop of
`run_workflow`.  `kick` models `crew.kickoff` (`none` = success), `kickNoop`
models the re-kick with the no-op storage handler after a readonly-database
error.  Returns the list of models executed (in execution order), the final
value written to the `OPENROUTER_MODEL` environment variable, and the
control signal. -/
def runnerForLoop (kick kickNoop : String → Option KickError)
    (attempt maxAttempts : ℕ) :
    List String → String → List String × String × ForSignal
  | [], env => ([], env, ForSignal.done RunOutcome.noResult)
  | m :: rest, _ =>
    match kick m with
    | none => ([m], m, ForSignal.done (RunOutcome.success m))
    | some e =>
      if e.readonlyDb then
        match kickNoop m with
        | none => ([m, m], m, ForSignal.done (RunOutcome.success m))
        | some e2 => ([m, m], m, ForSignal.done (RunOutcome.fatal e2))
      else if modelSwitchable e then
        if rest ≠ [] then
          let r := runnerForLoop kick kickNoop attempt maxAttempts rest m
          (m :: r.1, r.2.1, r.2.2)
        else if e.rateLimit ∧ attempt < maxAttempts then
          ([m], m, ForSignal.retryAttempt)
        else ([m], m, ForSignal.done (RunOutcome.fatal e))
      else ([m], m, ForSignal.done (RunOutcome.fatal e))

/-- The outer `while attempt <= max_attempts` loop.  The fuel argument
equals `maxAttempts - attempt + 1`, so fuel `0` is the loop exit
(`attempt > max_attempts`), after which the missing result surfaces as the
`RuntimeError("Crew execution did not produce a result.")`. -/
def runnerWhileLoop (kick kickNoop : String → Option KickError)
    (models : List String) (maxAttempts : ℕ) :
    ℕ → ℕ → String → List String × String × RunOutcome
  | 0, _, env => ([], env, RunOutcome.noResult)
  | fuel + 1, attempt, env =>
    match runnerForLoop kick kickNoop attempt maxAttempts models env with
    | (tr, env', ForSignal.done out) => (tr, env', out)
    | (tr, env', ForSignal.retryAttempt) =>
      let r := runnerWhileLoop kick kickNoop models maxAttempts fuel
        (attempt + 1) env'
      (tr ++ r.1, r.2.1, r.2.2)

/-- The part of `validate_runtime_environment` that concerns the
`OPENROUTER_MODEL` variable: it must be non-empty after stripping;
`otherChecksOk` abstracts the remaining required fields. -/
def validationPasses (envModel : String) (otherChecksOk : Bool) : Bool :=
  (pyStrip envModel ≠ "") && otherChecksOk

/-- `run_workflow` from `gui.py`, restricted to its retry/fallback loop and
its effect on the `OPENROUTER_MODEL` environment variable.  `envModel` is
the variable's value when the run begins (`""` models unset, as
`os.getenv(..., "")` does); the middle component of the result is its value
after the run, including the `finally` restoration. -/
def run_workflow (kick kickNoop : String → Option KickError)
    (fallbackModels : List String) (maxAttempts : ℕ) (envModel : String)
    (otherChecksOk : Bool) : List String × String × RunOutcome :=
  if validationPasses envModel otherChecksOk = false then
    ([], envModel, RunOutcome.validationFailed)
  else
    let originalModel := envModel
    let candidates := dedupPreserveOrder
      ((if pyStrip envModel = "" then [] else [pyStrip envModel]) ++ fallbackModels)
    let effectiveModels := if candidates = [] then [originalModel] else candidates
    let r := runnerWhileLoop kick kickNoop effectiveModels maxAttempts
      maxAttempts 1 envModel
    let envFinal := if originalModel ≠ "" then originalModel else r.2.1
    (r.1, envFinal, r.2.2)

/-! ## Supporting lemmas: characters -/

theorem char_toNat_ofNat (m : ℕ) (h : m < 55296) : (Char.ofNat m).toNat = m := by
  unfold Char.ofNat
  rw [dif_pos (Or.inl h)]
  rfl

theorem char_toUpper_eq (c : Char) :
    Char.toUpper c =
      if 97 ≤ c.toNat ∧ c.toNat ≤ 122 then Char.ofNat (c.toNat - 32) else c := by
  rfl

theorem char_toUpper_toNat_of_lower (c : Char)
    (h : 97 ≤ c.toNat ∧ c.toNat ≤ 122) :
    (Char.toUpper c).toNat = c.toNat - 32 := by
  rw [char_toUpper_eq, if_pos h]
  exact char_toNat_ofNat _ (by omega)

theorem char_toUpper_idem (c : Char) :
    Char.toUpper (Char.toUpper c) = Char.toUpper c := by
  by_cases h : 97 ≤ c.toNat ∧ c.toNat ≤ 122
  · have hn : (Char.toUpper c).toNat = c.toNat - 32 :=
      char_toUpper_toNat_of_lower c h
    rw [char_toUpper_eq (Char.toUpper c), if_neg (by omega)]
  · rw [char_toUpper_eq c, if_neg h, char_toUpper_eq c, if_neg h]

theorem char_eq_of_toNat_eq {c d : Char} (h : c.toNat = d.toNat) : c = d := by
  apply Char.eq_of_val_eq
  apply UInt32.eq_of_toBitVec_eq
  apply BitVec.eq_of_toNat_eq
  exact h

theorem char_isWhitespace_iff_toNat (c : Char) :
    c.isWhitespace = true ↔
      (c.toNat = 32 ∨ c.toNat = 9 ∨ c.toNat = 13 ∨ c.toNat = 10) := by
  unfold Char.isWhitespace
  simp only [Bool.or_eq_true, decide_eq_true_eq]
  constructor
  · rintro (((h | h) | h) | h) <;> subst h <;> decide
  · rintro (h | h | h | h)
    · exact Or.inl (Or.inl (Or.inl (char_eq_of_toNat_eq (h.trans (by decide)))))
    · exact Or.inl (Or.inl (Or.inr (char_eq_of_toNat_eq (h.trans (by decide)))))
    · exact Or.inl (Or.inr (char_eq_of_toNat_eq (h.trans (by decide))))
    · exact Or.inr (char_eq_of_toNat_eq (h.trans (by decide)))

theorem char_toUpper_isWhitespace (c : Char) :
    (Char.toUpper c).isWhitespace = c.isWhitespace := by
  by_cases h : 97 ≤ c.toNat ∧ c.toNat ≤ 122
  · have hn : (Char.toUpper c).toNat = c.toNat - 32 :=
      char_toUpper_toNat_of_lower c h
    have h1 : (Char.toUpper c).isWhitespace = false := by
      rw [Bool.eq_false_iff]
      intro hw
      rcases (char_isWhitespace_iff_toNat _).mp hw with hv | hv | hv | hv <;> omega
    have h2 : c.isWhitespace = false := by
      rw [Bool.eq_false_iff]
      intro hw
      rcases (char_isWhitespace_iff_toNat _).mp hw with hv | hv | hv | hv <;> omega
    rw [h1, h2]
  · rw [char_toUpper_eq c, if_neg h]

/-! ## Supporting lemmas: strip / upper -/

theorem pyStripList_eq_rdropWhile (cs : List Char) :
    pyStripList cs =
      List.rdropWhile Char.isWhitespace (cs.dropWhile Char.isWhitespace) := rfl

theorem dropWhile_pyStripList (cs : List Char) :
    (pyStripList cs).dropWhile Char.isWhitespace = pyStripList cs := by
  cases hrv : pyStripList cs with
  | nil => simp
  | cons a r₀ =>
    have hpre : pyStripList cs <+: cs.dropWhile Char.isWhitespace := by
      rw [pyStripList_eq_rdropWhile]
      exact List.rdropWhile_prefix _ _
    obtain ⟨t, ht⟩ := hpre
    rw [hrv] at ht
    have hhead : (cs.dropWhile Char.isWhitespace).head? = some a := by
      rw [← ht]; rfl
    have hnot := List.head?_dropWhile_not Char.isWhitespace cs
    rw [hhead] at hnot
    exact List.dropWhile_cons_of_neg (by simp [hnot])

theorem pyStripList_idem (cs : List Char) :
    pyStripList (pyStripList cs) = pyStripList cs := by
  rw [pyStripList_eq_rdropWhile (pyStripList cs), dropWhile_pyStripList,
    pyStripList_eq_rdropWhile cs, List.rdropWhile_idempotent]

theorem isWhitespace_comp_toUpper :
    (Char.isWhitespace ∘ Char.toUpper) = Char.isWhitespace := by
  funext c
  exact char_toUpper_isWhitespace c

theorem pyStripList_map_toUpper (cs : List Char) :
    pyStripList (cs.map Char.toUpper) = (pyStripList cs).map Char.toUpper := by
  unfold pyStripList
  rw [List.dropWhile_map, isWhitespace_comp_toUpper, ← List.map_reverse,
    List.dropWhile_map, isWhitespace_comp_toUpper, ← List.map_reverse]

theorem map_toUpper_idem (cs : List Char) :
    (cs.map Char.toUpper).map Char.toUpper = cs.map Char.toUpper := by
  rw [List.map_map]
  apply List.map_congr_left
  intro c _
  exact char_toUpper_idem c

/-- The base normalization `ticker.strip().upper()` is idempotent. -/
theorem pyUpper_pyStrip_idem (s : String) :
    pyUpper (pyStrip (pyUpper (pyStrip s))) = pyUpper (pyStrip s) := by
  unfold pyUpper pyStrip
  apply congrArg
  show ((pyStripList s.data).map Char.toUpper |> pyStripList).map Char.toUpper
      = (pyStripList s.data).map Char.toUpper
  rw [pyStripList_map_toUpper, pyStripList_idem, map_toUpper_idem]

theorem mem_dropWhile_of_not {c : Char} {p : Char → Bool} {l : List Char}
    (hmem : c ∈ l) (hp : p c = false) : c ∈ l.dropWhile p := by
  have := List.takeWhile_append_dropWhile p (l := l)
  rw [← this] at hmem
  rcases List.mem_append.mp hmem with h | h
  · exact absurd (List.mem_takeWhile_imp h) (by simp [hp])
  · exact h

theorem mem_pyStripList_of_not_ws {c : Char} {l : List Char}
    (hmem : c ∈ l) (hp : c.isWhitespace = false) : c ∈ pyStripList l := by
  unfold pyStripList
  rw [List.mem_reverse]
  apply mem_dropWhile_of_not _ hp
  rw [List.mem_reverse]
  exact mem_dropWhile_of_not hmem hp

theorem mem_data_pyUpper_pyStrip_of_dot {s : String} (h : '.' ∈ s.data) :
    '.' ∈ (pyUpper (pyStrip s)).data := by
  unfold pyUpper pyStrip
  show '.' ∈ (pyStripList s.data).map Char.toUpper
  have hmem : '.' ∈ pyStripList s.data :=
    mem_pyStripList_of_not_ws h (by decide)
  have : Char.toUpper '.' = '.' := by decide
  rw [← this]
  exact List.mem_map_of_mem Char.toUpper hmem

/-! ## Supporting lemmas: strings and dedup -/

theorem string_append_ne_self (s t : String) (h : t.data ≠ []) : s ++ t ≠ s := by
  intro he
  have hd := congrArg String.data he
  rw [String.data_append] at hd
  have hlen := congrArg List.length hd
  rw [List.length_append] at hlen
  have : t.data.length = 0 := by omega
  exact h (List.length_eq_zero.mp this)

theorem string_append_suffix_ne (s : String) {t u : String} (h : t.data ≠ u.data) :
    s ++ t ≠ s ++ u := by
  intro he
  have hd := congrArg String.data he
  rw [String.data_append, String.data_append] at hd
  exact h (List.append_cancel_left hd)

theorem dedupPreserveOrder_three (a b c : String) (hba : b ≠ a)
    (hca : c ≠ a) (hcb : c ≠ b) :
    dedupPreserveOrder [a, b, c] = [a, b, c] := by
  simp [dedupPreserveOrder, List.foldl, hba, hca, hcb]

/-! ## Claim C5 -/

/-- C5: `pct_change(current, previous)` equals the rounded formula
`round((current - previous) / abs(previous) * 100, 2)` when both operands
coerce and `previous` is nonzero, and is `"N/A"` (here `none`) when either
operand is non-numeric or `previous` is zero; in particular
`pct_change(x, 0) = "N/A"` for all `x`, `pct_change(125, 100) = 25.0` and
`pct_change(100, 125) = -20.0`. -/
theorem C5_pct_change_formula :
    (∀ current previous : Cell,
        ((to_float current = none ∨ to_float previous = none ∨
            to_float previous = some 0) →
          pct_change current previous = none)
        ∧ (∀ c p : ℚ, to_float current = some c → to_float previous = some p →
            p ≠ 0 →
            pct_change current previous =
              some (pyRoundTo ((c - p) / |p| * 100) 2)))
    ∧ (∀ x : Cell, pct_change x (Cell.num 0) = none)
    ∧ pct_change (Cell.num 125) (Cell.num 100) = some 25
    ∧ pct_change (Cell.num 100) (Cell.num 125) = some (-20) := by
  refine ⟨fun current previous => ⟨?_, ?_⟩, fun x => ?_, ?_, ?_⟩
  · rintro (h | h | h) <;>
      cases current <;> cases previous <;>
      simp_all [pct_change, to_float]
  · intro c p hc hp hpne
    cases current <;> cases previous <;> simp_all [pct_change, to_float]
  · cases x <;> simp [pct_change, to_float]
  · show pct_change (Cell.num 125) (Cell.num 100) = some 25
    simp only [pct_change, to_float, pyRoundTo, roundHalfEven]
    norm_num
  · show pct_change (Cell.num 100) (Cell.num 125) = some (-20)
    simp only [pct_change, to_float, pyRoundTo, roundHalfEven]
    norm_num

/-- Witness for C5 at concrete inputs. -/
theorem C5_pct_change_formula_witness :
    pct_change (Cell.text "abc") (Cell.num 5) = none ∧
    pct_change (Cell.num 7) (Cell.num 4) = some (pyRoundTo ((7 - 4) / |(4 : ℚ)| * 100) 2) := by
  constructor
  · exact (C5_pct_change_formula.1 (Cell.text "abc") (Cell.num 5)).1 (Or.inl rfl)
  · exact (C5_pct_change_formula.1 (Cell.num 7) (Cell.num 4)).2 7 4 rfl rfl (by norm_num)

/-! ## Claim C6 -/

/-- The row for `lineItem` is absent from the statement: the statement is
`None`, or no row label matches case-insensitively after trimming. -/
def rowAbsent (st : Statement) (lineItem : String) : Prop :=
  match st with
  | none => True
  | some rows =>
    ∀ r ∈ rows, pyLower (pyStrip r.1) ≠ pyLower (pyStrip lineItem)

theorem filterMap_to_float_series (row : List Cell) :
    (series_to_list row).filterMap to_float = row.filterMap to_float := by
  unfold series_to_list
  induction row with
  | nil => rfl
  | cons c rest ih =>
    cases c <;> simp_all [to_float]

theorem statementLookup_isSome_ne_nil {rows : List (String × List Cell)}
    {key : String} {row : List Cell}
    (h : statementLookup rows key = some row) : rows ≠ [] := by
  intro he
  subst he
  simp [statementLookup] at h

/-- C6: statement-row extraction never raises (it is a total function of
the model); on an absent row (matched case-insensitively after trimming)
it returns `("N/A", "N/A")`, and on a present row the non-coercible cells
are dropped preserving order, `latest` is the first surviving value
rounded to 4 decimals (`"N/A"` if none survive) and `previous` the second
(`"N/A"` if fewer than two survive). -/
theorem C6_latest_and_previous_extraction (st : Statement) (lineItem : String) :
    (rowAbsent st lineItem → latest_and_previous st lineItem = (none, none))
    ∧ (∀ rows row, st = some rows →
        statementLookup rows (pyLower (pyStrip lineItem)) = some row →
        latest_and_previous st lineItem =
          match row.filterMap to_float with
          | [] => (none, none)
          | [v] => (some (pyRoundTo v 4), none)
          | v :: w :: _ => (some (pyRoundTo v 4), some (pyRoundTo w 4))) := by
  constructor
  · intro habs
    have hrow : get_statement_row_values st lineItem = [] := by
      match st, habs with
      | none, _ => rfl
      | some rows, habs =>
        unfold get_statement_row_values
        by_cases he : rows.isEmpty
        · simp [he]
        · have hlk : statementLookup rows (pyLower (pyStrip lineItem)) = none := by
            unfold statementLookup
            have hfil : rows.filter
                (fun r => decide (pyLower (pyStrip r.1) = pyLower (pyStrip lineItem))) = [] := by
              rw [List.filter_eq_nil_iff]
              intro r hr
              simpa using habs r hr
            rw [hfil]
            rfl
          simp [he, hlk]
    simp [latest_and_previous, hrow]
  · intro rows row hst hlook
    subst hst
    have hne : rows ≠ [] := statementLookup_isSome_ne_nil hlook
    have hrow : get_statement_row_values (some rows) lineItem = series_to_list row := by
      unfold get_statement_row_values
      simp [List.isEmpty_iff, hne, hlook]
    simp only [latest_and_previous, hrow, filterMap_to_float_series]

/-- Witness for C6: a `None` statement has every row absent. -/
theorem C6_latest_and_previous_extraction_witness :
    latest_and_previous none "Total Revenue" = (none, none) :=
  (C6_latest_and_previous_extraction none "Total Revenue").1 trivial

/-! ## Claim C7 -/

/-- C7: for a normalized unsuffixed ticker `T` with `market = "india"`,
the candidate list is `[T.NS, T.BO, T]` under NSE preference and
`[T.BO, T.NS, T]` under BSE preference (deduplication preserving first
occurrence leaves the three distinct symbols untouched); a ticker already
containing a `"."` yields the single-element list of its normalization and
is never re-suffixed. -/
theorem C7_candidate_tickers_order (T market pref : String) :
    (pyUpper (pyStrip T) = T → T ≠ "" → '.' ∉ T.data →
      candidate_tickers T "india" "NSE" = [T ++ ".NS", T ++ ".BO", T]
      ∧ candidate_tickers T "india" "BSE" = [T ++ ".BO", T ++ ".NS", T])
    ∧ ('.' ∈ T.data → candidate_tickers T market pref = [pyUpper (pyStrip T)]) := by
  constructor
  · intro hnorm hne hdot
    have hNSBO : (".NS" : String).data ≠ (".BO" : String).data := by decide
    have hBONS : (".BO" : String).data ≠ (".NS" : String).data := by decide
    have h1 : T ++ ".NS" ≠ T ++ ".BO" := string_append_suffix_ne T hNSBO
    have h2 : T ++ ".BO" ≠ T ++ ".NS" := string_append_suffix_ne T hBONS
    have h3 : T ++ ".NS" ≠ T := string_append_ne_self T ".NS" (by decide)
    have h4 : T ++ ".BO" ≠ T := string_append_ne_self T ".BO" (by decide)
    have h5 : T ≠ T ++ ".NS" := fun h => h3 h.symm
    have h6 : T ≠ T ++ ".BO" := fun h => h4 h.symm
    constructor
    · unfold candidate_tickers
      rw [hnorm]
      rw [if_neg hne, if_neg hdot, if_neg (by simp), if_neg (by decide)]
      exact dedupPreserveOrder_three _ _ _ h2 h5 h6
    · unfold candidate_tickers
      rw [hnorm]
      rw [if_neg hne, if_neg hdot, if_neg (by simp), if_pos rfl]
      exact dedupPreserveOrder_three _ _ _ h1 h6 h5
  · intro hdot
    unfold candidate_tickers
    by_cases hb : pyUpper (pyStrip T) = ""
    · rw [if_pos hb]
    · rw [if_neg hb, if_pos (mem_data_pyUpper_pyStrip_of_dot hdot)]

/-- Witness for C7 at concrete tickers. -/
theorem C7_candidate_tickers_order_witness :
    candidate_tickers "RELIANCE" "india" "NSE" =
      ["RELIANCE.NS", "RELIANCE.BO", "RELIANCE"] ∧
    candidate_tickers "TCS.NS" "global" "NSE" = ["TCS.NS"] := by
  constructor
  · exact ((C7_candidate_tickers_order "RELIANCE" "global" "NSE").1
      (by decide) (by decide) (by decide)).1
  · exact (C7_candidate_tickers_order "TCS.NS" "global" "NSE").2 (by decide)

/-! ## Supporting lemmas: normalization idempotence -/

theorem strip_fixed_of_normal (t : String) :
    pyStripList (pyUpper (pyStrip t)).data = (pyUpper (pyStrip t)).data := by
  show pyStripList ((pyStripList t.data).map Char.toUpper)
      = (pyStripList t.data).map Char.toUpper
  rw [pyStripList_map_toUpper, pyStripList_idem]

theorem dropWhile_of_strip_fixed {a : List Char} (h : pyStripList a = a) :
    a.dropWhile Char.isWhitespace = a := by
  conv_lhs => rw [← h]
  rw [dropWhile_pyStripList, h]

theorem data_ne_nil_of_ne_empty {s : String} (h : s ≠ "") : s.data ≠ [] := by
  intro hd
  exact h (String.ext hd)

theorem pyStripList_append_no_trim (a y : List Char) (c : Char)
    (hdw : a.dropWhile Char.isWhitespace = a) (hane : a ≠ [])
    (hc : ¬ c.isWhitespace = true) :
    pyStripList (a ++ y ++ [c]) = a ++ y ++ [c] := by
  rw [pyStripList_eq_rdropWhile]
  have h1 : (a ++ y ++ [c]).dropWhile Char.isWhitespace = a ++ y ++ [c] := by
    rw [List.append_assoc, List.dropWhile_append, hdw]
    have : a.isEmpty = false := by simpa [List.isEmpty_iff] using hane
    rw [this]
    simp [List.append_assoc]
  rw [h1, List.rdropWhile_concat_neg _ _ _ hc]

/-- Appending an all-uppercase, whitespace-free, non-whitespace-terminated
suffix to a normalized ticker leaves `strip().upper()` normalization
fixed. -/
theorem normal_append_suffix_fixed (t sfx : String) (y : List Char) (c : Char)
    (hne : pyUpper (pyStrip t) ≠ "")
    (hdata : sfx.data = y ++ [c])
    (hc : ¬ c.isWhitespace = true)
    (hup : sfx.data.map Char.toUpper = sfx.data) :
    pyUpper (pyStrip (pyUpper (pyStrip t) ++ sfx)) = pyUpper (pyStrip t) ++ sfx := by
  set N := pyUpper (pyStrip t) with hN
  have hstrip : pyStripList (N ++ sfx).data = (N ++ sfx).data := by
    rw [String.data_append, hdata, ← List.append_assoc]
    rw [pyStripList_append_no_trim N.data y c
      (dropWhile_of_strip_fixed (strip_fixed_of_normal t))
      (data_ne_nil_of_ne_empty hne) hc]
  have hupN : N.data.map Char.toUpper = N.data := map_toUpper_idem _
  show String.mk ((pyStripList (N ++ sfx).data).map Char.toUpper) = N ++ sfx
  rw [hstrip, String.data_append, List.map_append, hupN, hup,
    ← String.data_append]

theorem normalize_market_values (v : String) :
    normalize_market v = "india" ∨ normalize_market v = "global" := by
  unfold normalize_market
  by_cases h : pyLower (pyStrip v) ∈ ["india", "indian", "in", "nse", "bse"]
  · exact Or.inl (if_pos h)
  · exact Or.inr (if_neg h)

theorem normalize_exchange_preference_values (v : String) :
    normalize_exchange_preference v = "BSE" ∨
      normalize_exchange_preference v = "NSE" := by
  unfold normalize_exchange_preference
  by_cases h : pyUpper (pyStrip v) ∈ ["BSE", "BO", ".BO"]
  · exact Or.inl (if_pos h)
  · exact Or.inr (if_neg h)

/-! ## Claim C9 -/

theorem normalize_market_idem (v : String) :
    normalize_market (normalize_market v) = normalize_market v := by
  rcases normalize_market_values v with h | h <;> rw [h] <;> decide

theorem normalize_exchange_preference_idem (v : String) :
    normalize_exchange_preference (normalize_exchange_preference v) =
      normalize_exchange_preference v := by
  rcases normalize_exchange_preference_values v with h | h <;> rw [h] <;> decide

theorem normalize_input_ticker_idem (t m e : String) :
    normalize_input_ticker (normalize_input_ticker t m e) m e =
      normalize_input_ticker t m e := by
  have hidem : pyUpper (pyStrip (pyUpper (pyStrip t))) = pyUpper (pyStrip t) :=
    pyUpper_pyStrip_idem t
  by_cases h1 : pyUpper (pyStrip t) = "" ∨ '.' ∈ (pyUpper (pyStrip t)).data
  · have ho : normalize_input_ticker t m e = pyUpper (pyStrip t) := by
      unfold normalize_input_ticker
      simp only [if_pos h1]
    rw [ho]
    unfold normalize_input_ticker
    simp only [hidem]
    rw [if_pos h1]
  · by_cases h2 : normalize_market m = "india"
    · have hne : pyUpper (pyStrip t) ≠ "" := fun h => h1 (Or.inl h)
      by_cases h3 : normalize_exchange_preference e = "BSE"
      · have ho : normalize_input_ticker t m e = pyUpper (pyStrip t) ++ ".BO" := by
          unfold normalize_input_ticker
          simp [if_neg h1, if_pos h2, h3]
        rw [ho]
        unfold normalize_input_ticker
        have hfix : pyUpper (pyStrip (pyUpper (pyStrip t) ++ ".BO")) =
            pyUpper (pyStrip t) ++ ".BO" :=
          normal_append_suffix_fixed t ".BO" ['.', 'B'] 'O' hne (by decide)
            (by decide) (by decide)
        simp only [hfix]
        rw [if_pos]
        right
        rw [String.data_append]
        exact List.mem_append.mpr (Or.inr (by decide))
      · have ho : normalize_input_ticker t m e = pyUpper (pyStrip t) ++ ".NS" := by
          unfold normalize_input_ticker
          simp only [if_neg h1, if_pos h2, if_neg h3]
        rw [ho]
        unfold normalize_input_ticker
        have hfix : pyUpper (pyStrip (pyUpper (pyStrip t) ++ ".NS")) =
            pyUpper (pyStrip t) ++ ".NS" :=
          normal_append_suffix_fixed t ".NS" ['.', 'N'] 'S' hne (by decide)
            (by decide) (by decide)
        simp only [hfix]
        rw [if_pos]
        right
        rw [String.data_append]
        exact List.mem_append.mpr (Or.inr (by decide))
    · have ho : normalize_input_ticker t m e = pyUpper (pyStrip t) := by
        unfold normalize_input_ticker
        simp only [if_neg h1, if_neg h2]
      rw [ho]
      unfold normalize_input_ticker
      simp only [hidem]
      rw [if_neg h1, if_neg h2]

/-- C9: the input-normalization functions of `main.py` are idempotent:
applying `normalize_market`, `normalize_exchange_preference`, or
`normalize_input_ticker` (with fixed market and exchange arguments) to its
own output returns that output unchanged. -/
theorem C9_normalization_idempotent (v t m e : String) :
    normalize_market (normalize_market v) = normalize_market v
    ∧ normalize_exchange_preference (normalize_exchange_preference v) =
        normalize_exchange_preference v
    ∧ normalize_input_ticker (normalize_input_ticker t m e) m e =
        normalize_input_ticker t m e :=
  ⟨normalize_market_idem v, normalize_exchange_preference_idem v,
    normalize_input_ticker_idem t m e⟩

/-! ## Claim C8 -/

/-- Counterexample to C8 as stated: with 22 observations (not fewer than
`21 + 1`) whose close 21 bars back is `0`, the 1-month change is still
`"N/A"`, so `"N/A"` does not occur *exactly* when the history is short. -/
theorem C8_exactly_counterexample :
    change_pct (0 :: List.replicate 21 (1 : ℚ)) 21 = none ∧
    ¬ (0 :: List.replicate 21 (1 : ℚ)).length < 21 + 1 := by
  have hlen : (0 :: List.replicate 21 (1 : ℚ)).length = 22 := by simp
  constructor
  · unfold change_pct
    rw [dif_neg (by omega)]
    have hprev : (0 :: List.replicate 21 (1 : ℚ)).get
        ⟨(0 :: List.replicate 21 (1 : ℚ)).length - (21 + 1), by omega⟩ = 0 := by
      simp
    rw [hprev]
    simp [pct_change, to_float]
  · omega

/-- C8 (amended): the percentage change at horizon `H ∈ {21, 63, 252}` is
`"N/A"` when the close history has fewer than `H + 1` observations, and
otherwise equals `pct_change(latest close, close H bars back)` (which is
itself `"N/A"` exactly when that reference close is zero); and when the
source omits average volume it is derived as the mean of the last 30
volume observations (all of them if fewer than 30 exist). -/
theorem C8_change_pct_and_average_volume (closes : List ℚ) (H : ℕ)
    (hH : H = 21 ∨ H = 63 ∨ H = 252) :
    (closes.length < H + 1 → change_pct closes H = none)
    ∧ (∀ h : H < closes.length,
        change_pct closes H =
          pct_change (Cell.num (closes.get ⟨closes.length - 1, by omega⟩))
            (Cell.num (closes.get ⟨closes.length - (H + 1), by omega⟩)))
    ∧ (∀ volumes : List ℚ, volumes ≠ [] →
        average_volume none volumes =
          some ((volumes.drop (volumes.length - 30)).sum /
            ((volumes.drop (volumes.length - 30)).length : ℚ))) := by
  refine ⟨?_, ?_, ?_⟩
  · intro hshort
    unfold change_pct
    rw [dif_pos (by omega)]
  · intro h
    unfold change_pct
    rw [dif_neg (by omega)]
  · intro volumes hvne
    unfold average_volume
    rw [if_neg hvne]
    by_cases h30 : volumes.length > 30
    · simp only [if_pos h30]
    · have hz : volumes.length - 30 = 0 := by omega
      simp only [if_neg h30, hz, List.drop_zero]

/-- Witness for C8 (amended) at concrete inputs. -/
theorem C8_change_pct_and_average_volume_witness :
    change_pct [(1 : ℚ)] 21 = none ∧
    average_volume none [(4 : ℚ)] =
      some (([(4 : ℚ)].drop ([(4 : ℚ)].length - 30)).sum /
        (([(4 : ℚ)].drop ([(4 : ℚ)].length - 30)).length : ℚ)) := by
  constructor
  · exact (C8_change_pct_and_average_volume [(1 : ℚ)] 21 (Or.inl rfl)).1
      (by norm_num)
  · exact (C8_change_pct_and_average_volume [(1 : ℚ)] 21 (Or.inl rfl)).2.2
      [(4 : ℚ)] (by simp)

/-! ## Claim C2 -/

theorem deduplicate_articles_ne_nil {l : List Article} (h : l ≠ []) :
    deduplicate_articles l ≠ [] := by
  match l, h with
  | a :: t, _ =>
    unfold deduplicate_articles dedupArticlesGo
    simp

/-- C2: `fallback_used` is true exactly when the priority tier returns
fewer than 3 articles; with fallback the broad tier is merged (deduped by
url, capped at 15) and, when articles remain, confidence is `"medium"`
with an explanatory note; an empty final list gives `"low"` confidence
with the note `"No recent news articles were returned by Exa."`; without
fallback the result is non-empty and confidence stays `"high"`. -/
theorem C2_news_fallback_confidence (priority broad : List Article) :
    ((newsSearchOutcome priority broad).fallbackUsed = true ↔
      priority.length < 3)
    ∧ (priority.length < 3 →
        (newsSearchOutcome priority broad).articles =
          (deduplicate_articles (priority ++ broad)).take 15)
    ∧ ((newsSearchOutcome priority broad).articles = [] →
        (newsSearchOutcome priority broad).sourceConfidence = "low"
        ∧ "No recent news articles were returned by Exa." ∈
            (newsSearchOutcome priority broad).dataQualityNotes)
    ∧ (priority.length < 3 → (newsSearchOutcome priority broad).articles ≠ [] →
        (newsSearchOutcome priority broad).sourceConfidence = "medium"
        ∧ "Priority-domain coverage was limited; broad web fallback was used."
            ∈ (newsSearchOutcome priority broad).dataQualityNotes)
    ∧ (¬ priority.length < 3 →
        (newsSearchOutcome priority broad).articles ≠ []
        ∧ (newsSearchOutcome priority broad).sourceConfidence = "high") := by
  by_cases hf : priority.length < 3
  · refine ⟨by simp [newsSearchOutcome, hf], fun _ => by simp [newsSearchOutcome, hf],
      fun he => ?_, fun _ hne => ?_, fun hnf => absurd hf hnf⟩
    · simp only [newsSearchOutcome, hf] at he ⊢
      simp_all [List.isEmpty_iff]
    · simp only [newsSearchOutcome, hf] at hne ⊢
      simp_all [List.isEmpty_iff]
  · have hpne : priority ≠ [] := by
      intro he
      rw [he] at hf
      exact hf (by simp)
    have hdne : deduplicate_articles (priority ++ []) ≠ [] := by
      rw [List.append_nil]
      exact deduplicate_articles_ne_nil hpne
    have hane : (newsSearchOutcome priority broad).articles ≠ [] := by
      simp only [newsSearchOutcome, hf]
      match hd : deduplicate_articles (priority ++ []), hdne with
      | a :: t, _ => simp [hd]
    refine ⟨by simp [newsSearchOutcome, hf], fun h => absurd h hf,
      fun he => absurd he hane, fun h => absurd h hf, fun _ => ⟨hane, ?_⟩⟩
    simp only [newsSearchOutcome, hf] at hane ⊢
    simp_all [List.isEmpty_iff]

/-- Witness for C2: one priority article (fewer than 3) and one distinct
broad article trigger the fallback. -/
theorem C2_news_fallback_confidence_witness :
    ((newsSearchOutcome
        [{ title := "a", url := "u1", publishedDate := "d", summary := "s" }]
        [{ title := "b", url := "u2", publishedDate := "d", summary := "s" }]).fallbackUsed
      = true)
    ∧ ((newsSearchOutcome
        [{ title := "a", url := "u1", publishedDate := "d", summary := "s" }]
        [{ title := "b", url := "u2", publishedDate := "d", summary := "s" }]).sourceConfidence
      = "medium") := by
  constructor
  · exact (C2_news_fallback_confidence _ _).1.mpr (by decide)
  · exact ((C2_news_fallback_confidence
      [{ title := "a", url := "u1", publishedDate := "d", summary := "s" }]
      [{ title := "b", url := "u2", publishedDate := "d", summary := "s" }]).2.2.2.1
      (by decide) (by decide)).1

/-! ## Claim C10 -/

theorem dedupArticlesGo_url_not_seen {a : Article} :
    ∀ (l : List Article) (seen : List String),
      a ∈ dedupArticlesGo l seen → a.url ∉ seen := by
  intro l
  induction l with
  | nil => intro seen h; simp [dedupArticlesGo] at h
  | cons b rest ih =>
    intro seen h
    unfold dedupArticlesGo at h
    by_cases hb : b.url ∈ seen
    · rw [if_pos hb] at h
      exact ih seen h
    · rw [if_neg hb] at h
      rcases List.mem_cons.mp h with rfl | hmem
      · exact hb
      · intro hseen
        exact ih (b.url :: seen) hmem (List.mem_cons_of_mem _ hseen)

theorem dedupArticlesGo_countP_le_one (k : String) :
    ∀ (l : List Article) (seen : List String),
      (dedupArticlesGo l seen).countP (fun a => a.url == k) ≤ 1 := by
  intro l
  induction l with
  | nil => intro seen; simp [dedupArticlesGo]
  | cons b rest ih =>
    intro seen
    unfold dedupArticlesGo
    by_cases hb : b.url ∈ seen
    · rw [if_pos hb]
      exact ih seen
    · rw [if_neg hb]
      rw [List.countP_cons]
      by_cases hk : b.url = k
      · have hcnt :
            (dedupArticlesGo rest (b.url :: seen)).countP (fun a => a.url == k) = 0 := by
          rw [List.countP_eq_zero]
          intro a ha
          have hnot := dedupArticlesGo_url_not_seen rest (b.url :: seen) ha
          have : a.url ≠ k := by
            intro he
            exact hnot (by rw [he, ← hk]; exact List.mem_cons_self _ _)
          simpa using this
        rw [hcnt]
        simp [hk]
      · have : (b.url == k) = false := by simpa using hk
        simp only [this, if_false]
        exact Nat.le_trans (ih (b.url :: seen)) (by omega)

/-- C10: a source record lacking a url is normalized to the url `"N/A"`;
deduplication keys on the url string, so at most one url-less article
survives, and a second url-less article is dropped even when its title and
summary are distinct. -/
theorem C10_missing_url_dedup :
    (∀ r : RawRecord, r.url = none → (normalizeRecord r).url = "N/A")
    ∧ (∀ priority broad : List Article,
        ((newsSearchOutcome priority broad).articles).countP
          (fun a => a.url == "N/A") ≤ 1)
    ∧ (∀ a b : Article, a.url = "N/A" → b.url = "N/A" →
        deduplicate_articles [a, b] = [a]) := by
  refine ⟨fun r hr => ?_, fun priority broad => ?_, fun a b ha hb => ?_⟩
  · simp [normalizeRecord, safe_str, hr]
  · have harts : (newsSearchOutcome priority broad).articles =
        (deduplicate_articles
          (priority ++ if priority.length < 3 then broad else [])).take 15 := by
      simp only [newsSearchOutcome]
      by_cases hf : priority.length < 3 <;> simp [hf]
    rw [harts]
    exact Nat.le_trans
      ((List.take_sublist 15 _).countP_le _)
      (dedupArticlesGo_countP_le_one "N/A" _ [])
  · unfold deduplicate_articles dedupArticlesGo
    rw [if_neg (by simp)]
    unfold dedupArticlesGo
    rw [if_pos (by rw [hb, ha]; exact List.mem_cons_self _ _)]
    rfl

/-- Witness for C10: two distinct url-less articles collapse to one. -/
theorem C10_missing_url_dedup_witness :
    (normalizeRecord
        { title := some "A headline", url := none,
          publishedDate := some "2024-01-01", summary := some "text" }).url = "N/A"
    ∧ deduplicate_articles
        [{ title := "first", url := "N/A", publishedDate := "d1", summary := "s1" },
         { title := "second", url := "N/A", publishedDate := "d2", summary := "s2" }]
      = [{ title := "first", url := "N/A", publishedDate := "d1", summary := "s1" }] := by
  constructor
  · exact C10_missing_url_dedup.1 _ rfl
  · exact C10_missing_url_dedup.2.2 _ _ rfl rfl

/-! ## Supporting lemmas: resolver loop -/

/-- The fallback handle held after scanning `l`: the handle of the last
successfully constructed candidate (or the incoming fallback). -/
def lastOkHandle {H E : Type} (construct : String → Except E H) :
    List String → Option H → Option H
  | [], fb => fb
  | c :: rest, fb =>
    match construct c with
    | Except.ok h => lastOkHandle construct rest (some h)
    | Except.error _ => lastOkHandle construct rest fb

/-- The last error held after scanning `l`: the error of the last candidate
whose construction raised (or the incoming error). -/
def lastErrValue {H E : Type} (construct : String → Except E H) :
    List String → Option E → Option E
  | [], le => le
  | c :: rest, le =>
    match construct c with
    | Except.ok _ => lastErrValue construct rest le
    | Except.error e => lastErrValue construct rest (some e)

theorem resolveLoop_found {H E : Type} (construct : String → Except E H)
    (valid : H → Bool) (c : String) (h : H) (hc : construct c = Except.ok h)
    (hv : valid h = true) :
    ∀ (pre : List String) (post : List String) (fb : Option H) (le : Option E),
      (∀ x ∈ pre, probeSucceeds construct valid x = false) →
      resolveLoop construct valid (pre ++ c :: post) fb le =
        LoopOutcome.found c h := by
  intro pre
  induction pre with
  | nil =>
    intro post fb le _
    unfold resolveLoop
    rw [List.nil_append] at *
    simp only [hc, hv, if_true]
  | cons a pre' ih =>
    intro post fb le hpre
    have ha : probeSucceeds construct valid a = false :=
      hpre a (List.mem_cons_self _ _)
    have hrest : ∀ x ∈ pre', probeSucceeds construct valid x = false :=
      fun x hx => hpre x (List.mem_cons_of_mem _ hx)
    rw [List.cons_append]
    unfold resolveLoop
    unfold probeSucceeds at ha
    match hca : construct a with
    | Except.ok ha' =>
      rw [hca] at ha
      have ha2 : valid ha' = false := ha
      simp only [hca]
      rw [if_neg (by simp [ha2])]
      exact ih post (some ha') le hrest
    | Except.error e =>
      simp only [hca]
      exact ih post fb (some e) hrest

theorem resolveLoop_exhausted {H E : Type} (construct : String → Except E H)
    (valid : H → Bool) :
    ∀ (l : List String) (fb : Option H) (le : Option E),
      (∀ x ∈ l, probeSucceeds construct valid x = false) →
      resolveLoop construct valid l fb le =
        LoopOutcome.exhausted (lastOkHandle construct l fb)
          (lastErrValue construct l le) := by
  intro l
  induction l with
  | nil => intro fb le _; rfl
  | cons c rest ih =>
    intro fb le hall
    have hc : probeSucceeds construct valid c = false :=
      hall c (List.mem_cons_self _ _)
    have hrest : ∀ x ∈ rest, probeSucceeds construct valid x = false :=
      fun x hx => hall x (List.mem_cons_of_mem _ hx)
    unfold resolveLoop lastOkHandle lastErrValue
    unfold probeSucceeds at hc
    match hcc : construct c with
    | Except.ok h =>
      rw [hcc] at hc
      have hc2 : valid h = false := hc
      simp only [hcc]
      rw [if_neg (by simp [hc2])]
      exact ih (some h) le hrest
    | Except.error e =>
      simp only [hcc]
      exact ih fb (some e) hrest

theorem lastOkHandle_some_of_some {H E : Type} (construct : String → Except E H) :
    ∀ (l : List String) (h : H),
      ∃ hf, lastOkHandle construct l (some h) = some hf := by
  intro l
  induction l with
  | nil => intro h; exact ⟨h, rfl⟩
  | cons c rest ih =>
    intro h
    unfold lastOkHandle
    match hcc : construct c with
    | Except.ok h2 => exact ih h2
    | Except.error _ => exact ih h

theorem lastOkHandle_isSome {H E : Type} (construct : String → Except E H) :
    ∀ (l : List String) (fb : Option H),
      (∃ x ∈ l, (construct x).isOk = true) →
      ∃ h, lastOkHandle construct l fb = some h := by
  intro l
  induction l with
  | nil => rintro fb ⟨x, hx, _⟩; exact absurd hx (by simp)
  | cons c rest ih =>
    rintro fb ⟨x, hx, hok⟩
    unfold lastOkHandle
    match hcc : construct c with
    | Except.ok h => exact lastOkHandle_some_of_some construct rest h
    | Except.error e =>
      rcases List.mem_cons.mp hx with rfl | hmem
      · rw [hcc] at hok
        simp [Except.isOk, Except.toBool] at hok
      · exact ih fb ⟨x, hmem, hok⟩

theorem lastOkHandle_none {H E : Type} (construct : String → Except E H) :
    ∀ (l : List String) (fb : Option H),
      (∀ x ∈ l, ∃ e, construct x = Except.error e) →
      lastOkHandle construct l fb = fb := by
  intro l
  induction l with
  | nil => intro fb _; rfl
  | cons c rest ih =>
    intro fb hall
    obtain ⟨e, he⟩ := hall c (List.mem_cons_self _ _)
    unfold lastOkHandle
    rw [he]
    exact ih fb fun x hx => hall x (List.mem_cons_of_mem _ hx)

theorem lastErrValue_of_all_err {H E : Type} (construct : String → Except E H) :
    ∀ (l : List String) (le : Option E), l ≠ [] →
      (∀ x ∈ l, ∃ e, construct x = Except.error e) →
      ∃ e lc, l.getLast? = some lc ∧ construct lc = Except.error e ∧
        lastErrValue construct l le = some e := by
  intro l
  induction l with
  | nil => intro le hne _; exact absurd rfl hne
  | cons c rest ih =>
    intro le _ hall
    obtain ⟨e, he⟩ := hall c (List.mem_cons_self _ _)
    match rest, ih with
    | [], _ =>
      refine ⟨e, c, rfl, he, ?_⟩
      unfold lastErrValue
      rw [he]
      rfl
    | d :: rest', ih =>
      obtain ⟨e', lc, hlast, hcl, hval⟩ := ih (some e) (by simp)
        (fun x hx => hall x (List.mem_cons_of_mem _ hx))
      refine ⟨e', lc, ?_, hcl, ?_⟩
      · rw [List.getLast?_cons_cons]
        exact hlast
      · unfold lastErrValue
        rw [he]
        exact hval

/-- The candidate list is never empty. -/
theorem foldl_dedup_prefix (l : List String) :
    ∀ acc : List String,
      acc <+: l.foldl (fun acc s => if s ∈ acc then acc else acc ++ [s]) acc := by
  induction l with
  | nil => intro acc; exact List.prefix_refl _
  | cons a t ih =>
    intro acc
    rw [List.foldl_cons]
    by_cases ha : a ∈ acc
    · rw [if_pos ha]; exact ih acc
    · rw [if_neg ha]
      exact List.IsPrefix.trans (List.prefix_append acc [a]) (ih (acc ++ [a]))

theorem dedupPreserveOrder_ne_nil (x : String) (l : List String) :
    dedupPreserveOrder (x :: l) ≠ [] := by
  unfold dedupPreserveOrder
  rw [List.foldl_cons]
  rw [if_neg (by simp)]
  intro he
  have := foldl_dedup_prefix l ([] ++ [x])
  rw [he] at this
  exact absurd (List.prefix_nil.mp this) (by simp)

theorem candidate_tickers_ne_nil (ticker market pref : String) :
    candidate_tickers ticker market pref ≠ [] := by
  unfold candidate_tickers
  by_cases h1 : pyUpper (pyStrip ticker) = ""
  · rw [if_pos h1]; simp
  · rw [if_neg h1]
    by_cases h2 : '.' ∈ (pyUpper (pyStrip ticker)).data
    · rw [if_pos h2]; simp
    · rw [if_neg h2]
      by_cases h3 : market ≠ "india"
      · rw [if_pos h3]; simp
      · rw [if_neg h3]
        by_cases h4 : pref = "BSE"
        · rw [if_pos h4]; exact dedupPreserveOrder_ne_nil _ _
        · rw [if_neg h4]; exact dedupPreserveOrder_ne_nil _ _

/-! ## Claim C1 -/

/-- C1: the resolver returns the first candidate whose validity probe
succeeds, appending a substitution note naming both requested and resolved
symbols when they differ; when no candidate validates but at least one
data-source handle was constructed without raising, it returns the last
candidate in the list without error; and only when constructing every
handle raised does it propagate the last raised error. -/
theorem C1_resolver_candidate_policy {H E : Type}
    (construct : String → Except E H) (valid : H → Bool)
    (ticker market pref : String) :
    (∀ (pre post : List String) (c : String) (h : H),
        candidate_tickers ticker market pref = pre ++ c :: post →
        (∀ x ∈ pre, probeSucceeds construct valid x = false) →
        construct c = Except.ok h → valid h = true →
        resolve_ticker_object construct valid ticker market pref =
          Except.ok (c, h,
            if c = pyUpper (pyStrip ticker) then []
            else [substitutionNote (pyUpper (pyStrip ticker)) c]))
    ∧ ((∀ x ∈ candidate_tickers ticker market pref,
          probeSucceeds construct valid x = false) →
        (∃ x ∈ candidate_tickers ticker market pref,
          (construct x).isOk = true) →
        ∃ h lc, (candidate_tickers ticker market pref).getLast? = some lc ∧
          resolve_ticker_object construct valid ticker market pref =
            Except.ok (lc, h, []))
    ∧ ((∀ x ∈ candidate_tickers ticker market pref,
          ∃ e, construct x = Except.error e) →
        ∃ e lc, (candidate_tickers ticker market pref).getLast? = some lc ∧
          construct lc = Except.error e ∧
          resolve_ticker_object construct valid ticker market pref =
            Except.error (some e)) := by
  refine ⟨?_, ?_, ?_⟩
  · intro pre post c h hdecomp hpre hc hv
    unfold resolve_ticker_object
    rw [hdecomp,
      resolveLoop_found construct valid c h hc hv pre post none none hpre]
  · intro hall hex
    have hne : candidate_tickers ticker market pref ≠ [] := by
      obtain ⟨x, hx, _⟩ := hex
      intro he
      rw [he] at hx
      exact absurd hx (by simp)
    obtain ⟨hF, hfb⟩ :=
      lastOkHandle_isSome construct (candidate_tickers ticker market pref)
        none hex
    match hlc : (candidate_tickers ticker market pref).getLast? with
    | none =>
      exact absurd (List.getLast?_eq_none_iff.mp hlc) hne
    | some lc =>
      refine ⟨hF, lc, rfl, ?_⟩
      unfold resolve_ticker_object
      rw [resolveLoop_exhausted construct valid _ none none hall, hfb, hlc]
  · intro hall
    have hprobe : ∀ x ∈ candidate_tickers ticker market pref,
        probeSucceeds construct valid x = false := by
      intro x hx
      obtain ⟨e, he⟩ := hall x hx
      unfold probeSucceeds
      rw [he]
    obtain ⟨e, lc, hlast, hcl, hval⟩ :=
      lastErrValue_of_all_err construct (candidate_tickers ticker market pref)
        none (candidate_tickers_ne_nil ticker market pref) hall
    refine ⟨e, lc, hlast, hcl, ?_⟩
    unfold resolve_ticker_object
    rw [resolveLoop_exhausted construct valid _ none none hprobe,
      lastOkHandle_none construct _ none hall, hval]

/-- Witness for C1: with candidates `[RELIANCE.NS (invalid),
RELIANCE.BO (valid), RELIANCE (valid)]` the resolver returns the second
candidate and a substitution note naming both symbols. -/
theorem C1_resolver_candidate_policy_witness :
    resolve_ticker_object (fun s => (Except.ok s : Except Unit String))
      (fun h => h == "RELIANCE.BO") "RELIANCE" "india" "NSE" =
      Except.ok ("RELIANCE.BO", "RELIANCE.BO",
        [substitutionNote (pyUpper (pyStrip "RELIANCE")) "RELIANCE.BO"]) := by
  have happ := (C1_resolver_candidate_policy
      (fun s => (Except.ok s : Except Unit String))
      (fun h => h == "RELIANCE.BO") "RELIANCE" "india" "NSE").1
    ["RELIANCE.NS"] ["RELIANCE"] "RELIANCE.BO" "RELIANCE.BO"
    (by decide) (by decide) rfl (by decide)
  rw [if_neg (by decide)] at happ
  exact happ

/-! ## Claim C4 -/

/-- C4: on every exit path of `run_workflow` — success, failure, or
raised exception, and regardless of how many candidate models were tried —
the `OPENROUTER_MODEL` environment variable ends with the value it held
before the run began. -/
theorem C4_env_model_restored (kick kickNoop : String → Option KickError)
    (fallbackModels : List String) (maxAttempts : ℕ) (envModel : String)
    (otherChecksOk : Bool) :
    (run_workflow kick kickNoop fallbackModels maxAttempts envModel
      otherChecksOk).2.1 = envModel := by
  unfold run_workflow
  by_cases hv : validationPasses envModel otherChecksOk = false
  · rw [if_pos hv]
  · rw [if_neg hv]
    have hstrip : pyStrip envModel ≠ "" := by
      intro h
      apply hv
      unfold validationPasses
      simp [h]
    have hne : envModel ≠ "" := by
      intro h
      apply hstrip
      rw [h]
      rfl
    simp [hne]

/-! ## Claim C3 -/

/-- C3: with candidate models `[m1, m2]` (primary `m1` plus fallback `m2`)
and `max_attempts = 3`, where every execution with `m1` raises a
rate-limit error and every execution with `m2` raises a policy-block
error, the runner executes `m1` once, switches to `m2`, never executes
`m1` again, and terminates fatally by propagating the error of the
exhausted last model. -/
theorem C3_runner_model_exhaustion (kick kickNoop : String → Option KickError)
    (m1 m2 : String) (e1 e2 : KickError)
    (hm1s : pyStrip m1 = m1) (hm1ne : m1 ≠ "") (h12 : m1 ≠ m2)
    (hk1 : kick m1 = some e1) (hk2 : kick m2 = some e2)
    (he1db : e1.readonlyDb = false) (he1rl : e1.rateLimit = true)
    (he2db : e2.readonlyDb = false) (he2rl : e2.rateLimit = false)
    (he2po : e2.freeModelPolicy = true) :
    run_workflow kick kickNoop [m2] 3 m1 true =
      ([m1, m2], m1, RunOutcome.fatal e2) := by
  have h21 : m2 ≠ m1 := Ne.symm h12
  unfold run_workflow
  rw [if_neg (by simp [validationPasses, hm1s, hm1ne])]
  simp [hm1s, hm1ne, h21, dedupPreserveOrder, runnerWhileLoop, runnerForLoop,
    modelSwitchable, hk1, hk2, he1db, he1rl, he2db, he2rl, he2po]

/-- Witness for C3 at a concrete scenario. -/
theorem C3_runner_model_exhaustion_witness :
    run_workflow
      (fun s => if s = "a" then some (KickError.mk false true false)
        else some (KickError.mk false false true))
      (fun _ => none) ["b"] 3 "a" true =
      (["a", "b"], "a", RunOutcome.fatal (KickError.mk false false true)) := by
  exact C3_runner_model_exhaustion _ _ "a" "b"
    (KickError.mk false true false) (KickError.mk false false true)
    (by decide) (by decide) (by decide) (by simp) (by simp)
    rfl rfl rfl rfl rfl
